import Mathlib

set_option maxRecDepth 200000

/-!
Verification development for the neurobit micro:bit extension
(`src/custom.ts`).  The detectors of the extension are sampling loops that
read one analog sample per iteration, keep a bounded FIFO buffer and run a
threshold / hysteresis state machine.  We embed each detector shallowly:
a call is modelled as a fold of a per-sample step function over the finite
list of samples that the loop reads during its epoch.  A sample is a pair
`(t, v)` where `t` is the value of the millisecond clock (`control.millis()`)
when the sample is read and `v : ℚ` is the analog value; detectors that never
consult the clock take plain `ℚ` samples.  Integer arithmetic of the source
is `ℤ`, analog values and the divisions performed on them are exact `ℚ`.
-/

namespace Neurobit

/-- Result enum of the gaze classifiers (`LookingAt` in the source; the
constructor order follows the source declaration). -/
inductive LookingAt
  | none
  | up
  | left
  | right
  | down
  | blink
deriving DecidableEq

/-! ## countSpikes (src/custom.ts lines 117-226)

State of the `countSpikes` loop.  `inExc` is true while control sits in the
nested `while (smooth_signal > threshold)` loop, i.e. after an iteration has
left the smoothed signal above the threshold and before it drops back.  The
remaining fields are the locals of the source function. -/
structure SpikeState where
  buffer : List ℚ
  counter : ℤ
  checking : Bool
  check_time : ℤ
  check_grip : Bool
  inExc : Bool
deriving DecidableEq

/-- `movingAverage(data, windowSize)` of the source: the mean of the first
`windowSize` entries of `data`. -/
def movingAverage (data : List ℚ) (windowSize : ℕ) : ℚ :=
  (data.take windowSize).sum / windowSize

/-- The fill branch `if (buffer.length < buffer_size) buffer.push(signal)`. -/
def fillBuf (s : SpikeState) (v : ℚ) : List ℚ :=
  if s.buffer.length < 20 then s.buffer ++ [v] else s.buffer

/-- The shift branch executed when the buffer is at capacity:
`buffer.shift(); buffer.push(signal)` applied after the fill branch. -/
def shiftBuf (s : SpikeState) (v : ℚ) : List ℚ :=
  (fillBuf s v).tail ++ [v]

/-- Code that runs when the inner `while` loop has just been left (the
smoothed signal dropped to or below the threshold): clear `checking`, count
a spike if the excursion stayed under the 500 ms interval, and overwrite the
counter with `-1` if the grip flag is still raised.  `t` is the clock value
at that moment. -/
def spikePost (t : ℤ) (s : SpikeState) : SpikeState :=
  let s1 : SpikeState :=
    if t - s.check_time < 500 then
      { s with checking := false, check_grip := false,
               counter := s.counter + 1, check_time := -500 }
    else { s with checking := false }
  if s1.check_grip = true then { s1 with counter := -1 } else s1

/-- One sample of `countSpikes`.  Outside the excursion this is one iteration
of the outer `while` loop (fill, shift, smooth, and either enter the inner
loop or run the post-excursion checks).  Inside the excursion it is one
iteration of the inner `while` loop; the iteration that brings the smoothed
signal back to or below the threshold falls through to the post-excursion
checks of the enclosing outer iteration. -/
def spikeStep (s : SpikeState) (t : ℤ) (v : ℚ) : SpikeState :=
  if s.inExc = true then
    if 150 < movingAverage ((s.buffer.tail ++ [v])) (s.buffer.tail ++ [v]).length then
      { s with buffer := s.buffer.tail ++ [v],
               check_time := if s.checking = true then s.check_time else t,
               checking := true, check_grip := true }
    else
      spikePost t
        { s with buffer := s.buffer.tail ++ [v],
                 check_time := if s.checking = true then s.check_time else t,
                 checking := true, check_grip := true, inExc := false }
  else
    if (fillBuf s v).length = 20 then
      if 150 < movingAverage (shiftBuf s v) (shiftBuf s v).length then
        { s with buffer := shiftBuf s v, inExc := true }
      else
        spikePost t { s with buffer := shiftBuf s v }
    else { s with buffer := fillBuf s v }

/-- Initial state of a `countSpikes` call: empty buffer, zero counter,
`checking = false`, `check_time = -interval = -500`, `check_grip = false`. -/
def spikeInit : SpikeState :=
  ⟨[], 0, false, -500, false, false⟩

/-- Run the `countSpikes` loops over the samples read during the call. -/
def spikeRun (s : SpikeState) : List (ℤ × ℚ) → SpikeState
  | [] => s
  | (t, v) :: rest => spikeRun (spikeStep s t v) rest

/-- `countSpikes(ms)`: the returned spike count, as a function of the samples
the call reads.  (The inner `while` loop of the source does not test the
epoch deadline, so a call never returns in mid-excursion; the sample list of
a completed call is the whole sequence of reads, including any that happen
after the deadline while the inner loop is still draining.) -/
def countSpikes (samples : List (ℤ × ℚ)) : ℤ :=
  (spikeRun spikeInit samples).counter

/-- Observer for the excursions of a `countSpikes` run: each time the machine
leaves the inner loop (the smoothed signal returns to or below the threshold)
it records the duration that the source compares against the 500 ms interval,
namely the clock at the exiting sample minus `check_time`, the clock at the
first sample read inside the inner loop. -/
def spikeDurations (s : SpikeState) : List (ℤ × ℚ) → List ℤ
  | [] => []
  | (t, v) :: rest =>
    let s2 := spikeStep s t v
    if s.inExc = true ∧ s2.inExc = false then
      (t - (if s.checking = true then s.check_time else t)) :: spikeDurations s2 rest
    else
      spikeDurations s2 rest

/-- A burst of `k` samples with value `v`, read at clock times
`t0, t0 + dt, t0 + 2·dt, …`. -/
def seg (t0 dt : ℤ) (k : ℕ) (v : ℚ) : List (ℤ × ℚ) :=
  (List.range k).map (fun i => (t0 + dt * i, v))

/-! ## getThreshold (src/custom.ts lines 87-101) -/

/-- `getThreshold(ms, percent)`: fold the running-maximum update
`if (max_val < val) max_val = val` (initial `max_val = 0`) over the samples
read during the epoch and return `max_val * (percent / 100)`.  The `percent`
argument defaults to 100 as in the block definition. -/
def getThreshold (samples : List (ℤ × ℚ)) (percent : ℚ := 100) : ℚ :=
  (samples.foldl (fun m p => if m < p.2 then p.2 else m) 0) * (percent / 100)

/-- Well-formedness of the sample list of a timed epoch of length `ms`:
every sample is read at a clock value `t` with `0 ≤ t < ms` (the loop guard
is `control.millis() - startTimer < ms` and the clock is monotone). -/
def epochSamples (ms : ℤ) (samples : List (ℤ × ℚ)) : Prop :=
  ∀ p ∈ samples, 0 ≤ p.1 ∧ p.1 < ms

/-! ## reactionTime (src/custom.ts lines 243-288) -/

/-- One iteration of the `reactionTime` measurement loop on the state
`(result, once)`: record the elapsed time of a sample exceeding the
threshold, but only while `once` is still set. -/
def reactionStep (th : ℚ) (s : ℤ × Bool) (t : ℤ) (v : ℚ) : ℤ × Bool :=
  if th < v ∧ s.2 = true then (t, false) else s

/-- The `reactionTime` measurement loop. -/
def reactionRun (th : ℚ) (s : ℤ × Bool) : List (ℤ × ℚ) → ℤ × Bool
  | [] => s
  | (t, v) :: rest => reactionRun th (reactionStep th s t v) rest

/-- `reactionTime(cue, threshold)`: the initial state is
`result = ms = 1500`, `once = true`; after the loop, a `result` still equal
to the sentinel `ms` is reported as `undefined` (`none`).  Sample times are
the elapsed milliseconds `control.millis() - startTime` at each iteration;
the threshold defaults to 200 as in the block definition.  The cue only
drives icon/tone output and does not affect the returned value. -/
def reactionTime (samples : List (ℤ × ℚ)) (th : ℚ := 200) : Option ℤ :=
  let s := reactionRun th (1500, true) samples
  if s.1 = 1500 then none else some s.1

/-! ## heartBeat (src/custom.ts lines 304-387) -/

/-- State of the `heartBeat` loop (locals of the source function). -/
structure HeartState where
  buffer : List ℚ
  beat_num : ℤ
  sum_unit : ℚ
  wait : ℤ
  prev_beat : ℤ
deriving DecidableEq

/-- The running minimum of the buffer, computed as in the source:
start from `buffer[0]` and fold over the remaining entries. -/
def bufferMin : List ℚ → ℚ
  | [] => 0
  | h :: tl => tl.foldl min h

/-- The running maximum of the buffer, computed as in the source. -/
def bufferMax : List ℚ → ℚ
  | [] => 0
  | h :: tl => tl.foldl max h

/-- The per-beat "unit" of an inter-beat interval (milliseconds):
`largeBox = Math.floor(last_beat / 200)`,
`smallBox = Math.floor((last_beat - largeBox * 200) / 40)`,
`unit = 1 * largeBox + 0.2 * smallBox`. -/
def unitOf (interval : ℤ) : ℚ :=
  let largeBox : ℤ := ⌊(interval : ℚ) / 200⌋
  let smallBox : ℤ := ⌊((interval : ℚ) - largeBox * 200) / 40⌋
  (largeBox : ℚ) + (0.2 : ℚ) * smallBox

/-- One iteration of the `heartBeat` loop reading the sample `(t, v)`:
when the refractory countdown `wait` is not positive and the buffer range
exceeds 300, register a beat (accumulate the unit of the inter-beat
interval, bump the beat counter, restart `wait` at `buffer_size * 3 = 18`);
then shift the new sample into the buffer and decrement `wait`. -/
def heartStep (s : HeartState) (t : ℤ) (v : ℚ) : HeartState :=
  let s1 : HeartState :=
    if s.wait ≤ 0 then
      if 300 < bufferMax s.buffer - bufferMin s.buffer then
        { s with prev_beat := t,
                 sum_unit := s.sum_unit + unitOf (t - s.prev_beat),
                 beat_num := s.beat_num + 1,
                 wait := 18 }
      else s
    else s
  { s1 with buffer := s1.buffer.tail ++ [v], wait := s1.wait - 1 }

/-- The `heartBeat` sampling loop. -/
def heartRun (s : HeartState) : List (ℤ × ℚ) → HeartState
  | [] => s
  | (t, v) :: rest => heartRun (heartStep s t v) rest

/-- `heartBeat(ms)`: `pre` is the six samples pushed by the pre-fill loop,
`start` the clock value taken into `prev_beat` just before the timed loop,
and `samples` the timed reads.  The return is
`beat_num > 0 ? 300 / (sum_unit / beat_num) : undefined`. -/
def heartBeat (pre : List ℚ) (start : ℤ) (samples : List (ℤ × ℚ)) : Option ℚ :=
  let s := heartRun ⟨pre, 0, 0, 0, start⟩ samples
  if 0 < s.beat_num then some (300 / (s.sum_unit / s.beat_num)) else none

/-! ## gazeV (src/custom.ts lines 390-517) and its helpers -/

/-- The module-level state shared by all `gazeV` calls
(src/custom.ts lines 390-395): the vertical latches, the blink cooldown
counter and the two chained buffers. -/
structure GazeVState where
  currently_up : Bool
  currently_down : Bool
  center_UD : Bool
  cooldown_counter : ℤ
  blink_buffer : List ℚ
  updown_buffer : List ℚ
deriving DecidableEq

/-- `calculateSlope(data)` (src/custom.ts lines 424-439): accumulate
`xSum, ySum, xySum, xSquaredSum` over index/value pairs; the second argument
is the index of the first element of the remaining list (the source loop
starts at `x = 0`). -/
def slopeSums : List ℚ → ℚ → ℚ × ℚ × ℚ × ℚ
  | [], _ => (0, 0, 0, 0)
  | y :: rest, x =>
    let r := slopeSums rest (x + 1)
    (x + r.1, y + r.2.1, x * y + r.2.2.1, x * x + r.2.2.2)

/-- The ordinary-least-squares slope
`(n * xySum - xSum * ySum) / (n * xSquaredSum - xSum * xSum)`. -/
def calculateSlope (data : List ℚ) : ℚ :=
  let n : ℚ := data.length
  let r := slopeSums data 0
  (n * r.2.2.1 - r.1 * r.2.1) / (n * r.2.2.2 - r.1 * r.1)

/-- The staggered buffer plumbing of one `gazeV` iteration: while the blink
delay line (capacity `wait_size = Math.floor(50 / 3) = 16`) is not full the
sample only enters it; afterwards the oldest blink-buffer entry is shifted
into the updown buffer (capacity 10, FIFO once full) and the sample is
pushed onto the blink buffer.  Returns (blink buffer, updown buffer). -/
def gazeVBuffers (s : GazeVState) (v : ℚ) : List ℚ × List ℚ :=
  if s.blink_buffer.length < 16 then
    (s.blink_buffer ++ [v], s.updown_buffer)
  else if s.updown_buffer.length < 10 then
    (s.blink_buffer.tail ++ [v], s.updown_buffer ++ [s.blink_buffer.headD 0])
  else
    (s.blink_buffer.tail ++ [v], s.updown_buffer.tail ++ [s.blink_buffer.headD 0])

/-- One iteration of the `gazeV` loop on the persistent state and the
result local.  Once the updown buffer is full: a blink (slope of the first
ten blink-buffer entries below `-75`) restarts the cooldown and sets the
result; after the cooldown (`cooldown_period = wait_size + buffer_size = 26`)
the mean of the updown buffer is classified against
`baseline * 1.40` and `baseline * 0.60` with `baseline = 450`, with the
cross-direction latches `currently_up` / `currently_down` / `center_UD`. -/
def gazeVStep (s : GazeVState) (r : LookingAt) (v : ℚ) : GazeVState × LookingAt :=
  let bb := (gazeVBuffers s v).1
  let ub := (gazeVBuffers s v).2
  let s1 : GazeVState := { s with blink_buffer := bb, updown_buffer := ub }
  if ub.length = 10 then
    let isBlink : Bool := decide (calculateSlope (bb.take 10) < -75)
    let cc : ℤ := if isBlink = true then 0 else s.cooldown_counter
    let r1 : LookingAt := if isBlink = true then LookingAt.blink else r
    if 26 ≤ cc then
      if (450 : ℚ) * 1.40 < ub.sum / 10 then
        if s.currently_down = true then
          ({ s1 with cooldown_counter := cc, center_UD := true }, r1)
        else
          ({ s1 with cooldown_counter := cc, center_UD := false,
                     currently_up := true }, LookingAt.up)
      else if ub.sum / 10 < (450 : ℚ) * 0.60 then
        if s.currently_up = true then
          ({ s1 with cooldown_counter := cc, center_UD := true }, r1)
        else
          ({ s1 with cooldown_counter := cc, center_UD := false,
                     currently_down := true }, LookingAt.down)
      else
        if s.center_UD = true then
          ({ s1 with cooldown_counter := cc, currently_up := false,
                     currently_down := false }, r1)
        else
          ({ s1 with cooldown_counter := cc }, r1)
    else
      ({ s1 with cooldown_counter := cc + 1 }, r1)
  else (s1, r)

/-- The `gazeV` sampling loop threading state and result. -/
def gazeVRun (s : GazeVState) (r : LookingAt) : List ℚ → GazeVState × LookingAt
  | [] => (s, r)
  | v :: rest => gazeVRun (gazeVStep s r v).1 (gazeVStep s r v).2 rest

/-- A whole `gazeV()` call: the result local starts at `LookingAt.none`
while the persistent state is whatever the previous calls left behind; the
function returns the final state together with the returned classification.
`gazeV` never consults the clock except for the epoch deadline, so the call
is determined by the list of samples it reads. -/
def gazeV (s : GazeVState) (samples : List ℚ) : GazeVState × LookingAt :=
  gazeVRun s LookingAt.none samples

/-- The pristine module state at program start
(`currently_up = currently_down = center_UD = false`,
`cooldown_counter = 0`, both buffers empty). -/
def gazeVInit : GazeVState :=
  ⟨false, false, false, 0, [], []⟩

/-! ## gazeH (src/custom.ts lines 520-609) -/

/-- The module-level state shared by all `gazeH` calls
(src/custom.ts lines 520-523). -/
structure GazeHState where
  currently_left : Bool
  currently_right : Bool
  center_LR : Bool
  leftright_buffer : List ℚ
deriving DecidableEq

/-- One iteration of the `gazeH` loop: fill the buffer (capacity 10), and
once full shift/push and classify the buffer mean against
`baseline * 1.25` and `baseline * 0.75` with the horizontal latches. -/
def gazeHStep (s : GazeHState) (r : LookingAt) (v : ℚ) : GazeHState × LookingAt :=
  let buf1 := if s.leftright_buffer.length < 10 then s.leftright_buffer ++ [v]
              else s.leftright_buffer
  if buf1.length = 10 then
    let buf := buf1.tail ++ [v]
    let avg := buf.sum / 10
    if (450 : ℚ) * 1.25 < avg then
      if s.currently_right = true then
        ({ s with leftright_buffer := buf, center_LR := true }, r)
      else
        ({ s with leftright_buffer := buf, center_LR := false,
                  currently_left := true }, LookingAt.left)
    else if avg < (450 : ℚ) * 0.75 then
      if s.currently_left = true then
        ({ s with leftright_buffer := buf, center_LR := true }, r)
      else
        ({ s with leftright_buffer := buf, center_LR := false,
                  currently_right := true }, LookingAt.right)
    else
      if s.center_LR = true then
        ({ s with leftright_buffer := buf, currently_left := false,
                  currently_right := false }, r)
      else
        ({ s with leftright_buffer := buf }, r)
  else ({ s with leftright_buffer := buf1 }, r)

/-- The `gazeH` sampling loop. -/
def gazeHRun (s : GazeHState) (r : LookingAt) : List ℚ → GazeHState × LookingAt
  | [] => (s, r)
  | v :: rest => gazeHRun (gazeHStep s r v).1 (gazeHStep s r v).2 rest

/-- A whole `gazeH()` call (result local starts at `LookingAt.none`). -/
def gazeH (s : GazeHState) (samples : List ℚ) : GazeHState × LookingAt :=
  gazeHRun s LookingAt.none samples

/-! ## blinks (src/custom.ts lines 624-693) -/

/-- State of a `blinks` call (locals of the source function).  `exitFlag`
is the `exit` local that terminates the loop early. -/
structure BlinkState where
  buffer : List ℚ
  blink_check_timer : ℤ
  start_val : ℚ
  currently_checking : Bool
  exitFlag : Bool
deriving DecidableEq

/-- One iteration of the `blinks` loop on sample `(t, v)`: fill the
two-sample buffer, then once full shift/push; when the pair differs by more
than 40, a rising pair starts a 300 ms check window recording the pair's
older value, and inside the window a pair whose older element is below the
recorded start value declares the blink (`exit = true`); an expired window
clears `currently_checking`. -/
def blinkStep (s : BlinkState) (t : ℤ) (v : ℚ) : BlinkState :=
  let buf1 := if s.buffer.length < 2 then s.buffer ++ [v] else s.buffer
  if buf1.length = 2 then
    let buf := buf1.tail ++ [v]
    let b0 := buf.headD 0
    let b1 := buf.getD 1 0
    let s1 : BlinkState := { s with buffer := buf }
    if 40 < |b0 - b1| then
      let s2 : BlinkState :=
        if s1.currently_checking = false ∧ b0 < b1 then
          { s1 with blink_check_timer := t, start_val := b0,
                    currently_checking := true }
        else s1
      if t - s2.blink_check_timer < 300 then
        if b0 < s2.start_val then
          { s2 with currently_checking := false, exitFlag := true }
        else s2
      else { s2 with currently_checking := false }
    else s1
  else { s with buffer := buf1 }

/-- Initial state of a `blinks` call. -/
def blinkInit : BlinkState :=
  ⟨[], 0, 0, false, false⟩

/-- The `blinks` loop: it stops reading as soon as `exit` is set (the loop
guard is `control.millis() - start_time < ms && !exit`). -/
def blinkRun (s : BlinkState) : List (ℤ × ℚ) → BlinkState
  | [] => s
  | (t, v) :: rest => if s.exitFlag = true then s else blinkRun (blinkStep s t v) rest

/-- `blinks(ms)` returns the `exit` flag. -/
def blinks (samples : List (ℤ × ℚ)) : Bool :=
  (blinkRun blinkInit samples).exitFlag

/-! ## Concrete traces used as witnesses and counterexamples -/

/-- Two isolated short excursions: fill with 20 zeros, rise to 400 for
8 samples (the smoothed signal reaches 160 > 150 on the eighth), drain with
13 zeros (60 ms above threshold), flush, and repeat. -/
def witTrace3 : List (ℤ × ℚ) :=
  seg 0 5 20 0 ++ seg 100 5 8 400 ++ seg 140 5 13 0 ++ seg 205 5 7 0 ++
  seg 300 5 8 400 ++ seg 340 5 13 0

/-- A short spike (60 ms), then a grip (the inner loop runs from clock 435
to 1635, i.e. 1200 ms ≥ 500 ms), then another short spike (60 ms). -/
def ceTrace1 : List (ℤ × ℚ) :=
  seg 0 5 20 0 ++ seg 100 5 8 400 ++ seg 140 5 13 0 ++ seg 205 5 7 0 ++
  seg 300 5 8 400 ++ seg 435 100 13 0 ++ seg 1640 5 7 0 ++
  seg 1700 5 8 400 ++ seg 1740 5 13 0

/-- A single grip: fill, rise to 400, and drain slowly so that the inner
loop spans 1200 ms ≥ 500 ms. -/
def witTrace1 : List (ℤ × ℚ) :=
  seg 0 5 20 0 ++ seg 100 5 8 400 ++ seg 200 100 13 0

/-- Sixty samples far above `baseline * 1.40 = 630`. -/
def ceHighs : List ℚ :=
  List.replicate 60 1000

/-- Fifty-two samples above `baseline * 1.40 = 630`: enough to fill both
gaze buffers (16 + 10 samples), run down the cooldown (26 samples) and
classify once. -/
def highs52 : List ℚ :=
  List.replicate 52 900

/-- A rising edge 150 → 210 (difference 60 > 40) opens a blink check window
at clock 40 with `start_val = 150`; the signal then falls to 90 and 85 in
small steps (pair differences ≤ 40), well below 150 and inside the 300 ms
window. -/
def ceTrace6 : List (ℤ × ℚ) :=
  [(0, 100), (20, 150), (40, 210), (60, 90), (80, 85), (100, 85), (120, 85)]

end Neurobit

namespace Neurobit

/-! ## Helper lemmas -/

theorem spikePost_buffer (t : ℤ) (s : SpikeState) : (spikePost t s).buffer = s.buffer := by
  simp only [spikePost]
  split_ifs <;> rfl

theorem spikePost_of_lt (t : ℤ) (s : SpikeState) (h : t - s.check_time < 500) :
    spikePost t s = { s with checking := false, check_grip := false,
                             counter := s.counter + 1, check_time := -500 } := by
  simp [spikePost, h]

theorem spikePost_of_ge_grip (t : ℤ) (s : SpikeState) (h : ¬ t - s.check_time < 500)
    (hg : s.check_grip = true) :
    spikePost t s = { s with checking := false, counter := -1 } := by
  simp [spikePost, h, hg]

theorem spikePost_of_ge_nogrip (t : ℤ) (s : SpikeState) (h : ¬ t - s.check_time < 500)
    (hg : s.check_grip = false) :
    spikePost t s = { s with checking := false } := by
  simp [spikePost, h, hg]

theorem spikeStep_fill (s : SpikeState) (t : ℤ) (v : ℚ) (hex : s.inExc = false)
    (hl : ¬ (fillBuf s v).length = 20) :
    spikeStep s t v = { s with buffer := fillBuf s v } := by
  simp [spikeStep, hex, hl]

theorem spikeStep_enter (s : SpikeState) (t : ℤ) (v : ℚ) (hex : s.inExc = false)
    (hl : (fillBuf s v).length = 20)
    (hsm : 150 < movingAverage (shiftBuf s v) (shiftBuf s v).length) :
    spikeStep s t v = { s with buffer := shiftBuf s v, inExc := true } := by
  simp [spikeStep, hex, hl, hsm]

theorem spikeStep_quiet (s : SpikeState) (t : ℤ) (v : ℚ) (hex : s.inExc = false)
    (hl : (fillBuf s v).length = 20)
    (hsm : ¬ 150 < movingAverage (shiftBuf s v) (shiftBuf s v).length) :
    spikeStep s t v = spikePost t { s with buffer := shiftBuf s v } := by
  simp [spikeStep, hex, hl, hsm]

theorem spikeStep_stay (s : SpikeState) (t : ℤ) (v : ℚ) (hex : s.inExc = true)
    (hsm : 150 < movingAverage (s.buffer.tail ++ [v]) (s.buffer.tail ++ [v]).length) :
    spikeStep s t v = { s with buffer := s.buffer.tail ++ [v],
                               check_time := if s.checking = true then s.check_time else t,
                               checking := true, check_grip := true } := by
  unfold spikeStep
  rw [if_pos hex, if_pos hsm]

theorem spikeStep_leave (s : SpikeState) (t : ℤ) (v : ℚ) (hex : s.inExc = true)
    (hsm : ¬ 150 < movingAverage (s.buffer.tail ++ [v]) (s.buffer.tail ++ [v]).length) :
    spikeStep s t v =
      spikePost t { s with buffer := s.buffer.tail ++ [v],
                           check_time := if s.checking = true then s.check_time else t,
                           checking := true, check_grip := true, inExc := false } := by
  unfold spikeStep
  rw [if_pos hex, if_neg hsm]

theorem spikeRun_cons (s : SpikeState) (t : ℤ) (v : ℚ) (rest : List (ℤ × ℚ)) :
    spikeRun s ((t, v) :: rest) = spikeRun (spikeStep s t v) rest := rfl

theorem spikeDurations_cons (s : SpikeState) (t : ℤ) (v : ℚ) (rest : List (ℤ × ℚ)) :
    spikeDurations s ((t, v) :: rest) =
      if s.inExc = true ∧ (spikeStep s t v).inExc = false then
        (t - (if s.checking = true then s.check_time else t)) :: spikeDurations (spikeStep s t v) rest
      else spikeDurations (spikeStep s t v) rest := rfl

theorem spikePost_inExc (t : ℤ) (s : SpikeState) : (spikePost t s).inExc = s.inExc := by
  simp only [spikePost]
  split_ifs <;> rfl

theorem if_lt_max (m v : ℚ) : (if m < v then v else m) = max m v := by
  by_cases h : m < v
  · simp [h, max_eq_right h.le]
  · simp [h, max_eq_left (le_of_not_lt h)]

theorem getThreshold_foldl (l : List (ℤ × ℚ)) (m : ℚ) :
    l.foldl (fun m p => if m < p.2 then p.2 else m) m = (l.map Prod.snd).foldl max m := by
  induction l generalizing m with
  | nil => rfl
  | cons p l ih =>
    rw [List.foldl_cons, List.map_cons, List.foldl_cons, if_lt_max]
    exact ih _

theorem reactionRun_noonce (th : ℚ) (x : ℤ) (l : List (ℤ × ℚ)) :
    reactionRun th (x, false) l = (x, false) := by
  induction l with
  | nil => rfl
  | cons p l ih =>
    obtain ⟨t, v⟩ := p
    show reactionRun th (reactionStep th (x, false) t v) l = (x, false)
    simp only [reactionStep]
    rw [if_neg (by simp)]
    exact ih

/-! ## Claims -/

/-- C8: `getThreshold(ms, percent)` tracks the running maximum `M` of the
samples read during the epoch and returns `M * percent / 100` (`percent`
defaulting to 100 in the block definition); a non-positive `ms` admits no
sample (`epochSamples` forces the read list to be empty) and the call
returns the degenerate-but-defined value 0. -/
theorem C8_getThreshold :
    (∀ (samples : List (ℤ × ℚ)) (percent : ℚ),
       getThreshold samples percent =
         ((samples.map Prod.snd).foldl max 0) * (percent / 100)) ∧
    (∀ (ms : ℤ) (samples : List (ℤ × ℚ)) (percent : ℚ), ms ≤ 0 →
       epochSamples ms samples → getThreshold samples percent = 0) := by
  constructor
  · intro samples percent
    rw [getThreshold, getThreshold_foldl]
  · intro ms samples percent hms hwf
    cases samples with
    | nil => simp [getThreshold]
    | cons p l =>
      have := hwf p (by simp)
      omega

/-- Witness for C8 at concrete inputs. -/
theorem C8_getThreshold_witness :
    getThreshold [((0 : ℤ), (7 : ℚ)), (1, 3)] 50 = 7 / 2 ∧
    getThreshold ([] : List (ℤ × ℚ)) 100 = 0 := by
  constructor
  · rw [C8_getThreshold.1 [((0 : ℤ), (7 : ℚ)), (1, 3)] 50]
    with_unfolding_all decide
  · exact C8_getThreshold.2 0 [] 100 le_rfl (fun p hp => absurd hp (List.not_mem_nil p))

/-- C5: `reactionTime(cue, threshold)` (threshold defaulting to 200) reads
samples only at clock values inside the 1500 ms window; it returns the
elapsed time of the first sample strictly exceeding the threshold — later
crossings change nothing, since `once` is cleared — and the sentinel `none`
(`undefined`) if no sample exceeds the threshold. -/
theorem C5_reactionTime (samples : List (ℤ × ℚ)) (th : ℚ)
    (h : ∀ p ∈ samples, 0 ≤ p.1 ∧ p.1 < 1500) :
    reactionTime samples th =
      Option.map Prod.fst (samples.find? fun p => decide (th < p.2)) := by
  induction samples with
  | nil => rfl
  | cons p l ih =>
    obtain ⟨t, v⟩ := p
    by_cases hv : th < v
    · have ht : t < 1500 := (h (t, v) (by simp)).2
      have hstep : reactionStep th (1500, true) t v = (t, false) := by
        simp [reactionStep, hv]
      have hrun : reactionRun th (1500, true) ((t, v) :: l) = (t, false) := by
        show reactionRun th (reactionStep th (1500, true) t v) l = (t, false)
        rw [hstep, reactionRun_noonce]
      have hfind : List.find? (fun p => decide (th < p.2)) ((t, v) :: l) = some (t, v) :=
        List.find?_cons_of_pos _ (by simpa using hv)
      simp only [reactionTime]
      rw [hrun, hfind]
      simp only [Option.map_some']
      rw [if_neg (by simpa using show t ≠ 1500 by omega)]
    · have hstep : reactionStep th (1500, true) t v = (1500, true) := by
        simp [reactionStep, hv]
      have hrun : reactionRun th (1500, true) ((t, v) :: l) =
          reactionRun th (1500, true) l := by
        show reactionRun th (reactionStep th (1500, true) t v) l = _
        rw [hstep]
      have hfind : List.find? (fun p => decide (th < p.2)) ((t, v) :: l) =
          List.find? (fun p => decide (th < p.2)) l :=
        List.find?_cons_of_neg _ (by simpa using hv)
      have ihl := ih (fun q hq => h q (by simp [hq]))
      simp only [reactionTime] at ihl ⊢
      rw [hrun, hfind]
      exact ihl

/-- Witness for C5: the signal crosses threshold 200 at elapsed time 300 and
again later; the call returns 300. -/
theorem C5_reactionTime_witness :
    reactionTime [((5 : ℤ), (10 : ℚ)), (300, 250), (400, 260)] 200 = some 300 := by
  have h := C5_reactionTime [((5 : ℤ), (10 : ℚ)), (300, 250), (400, 260)] 200
    (by with_unfolding_all decide)
  rw [h]
  with_unfolding_all decide

/-- C4: `heartBeat(ms)` returns `300 / (sum_unit / beat_num)` when at least
one beat was detected and the sentinel `none` (`undefined`) when zero beats
were detected, so the division by `beat_num` is never performed with a zero
divisor; and a detected beat accumulates exactly
`unit = largeBox + 0.2 * smallBox` of the inter-beat interval
`t - prev_beat` (with `largeBox = ⌊interval / 200⌋` and
`smallBox = ⌊(interval - largeBox * 200) / 40⌋`), while an iteration that
detects no beat leaves `sum_unit` and `beat_num` unchanged. -/
theorem C4_heartBeat :
    (∀ (pre : List ℚ) (start : ℤ) (samples : List (ℤ × ℚ)),
       0 < (heartRun ⟨pre, 0, 0, 0, start⟩ samples).beat_num →
       heartBeat pre start samples =
         some (300 / ((heartRun ⟨pre, 0, 0, 0, start⟩ samples).sum_unit /
                      (heartRun ⟨pre, 0, 0, 0, start⟩ samples).beat_num))) ∧
    (∀ (pre : List ℚ) (start : ℤ) (samples : List (ℤ × ℚ)),
       (heartRun ⟨pre, 0, 0, 0, start⟩ samples).beat_num ≤ 0 →
       heartBeat pre start samples = none) ∧
    (∀ (s : HeartState) (t : ℤ) (v : ℚ), s.wait ≤ 0 →
       300 < bufferMax s.buffer - bufferMin s.buffer →
       (heartStep s t v).sum_unit = s.sum_unit + unitOf (t - s.prev_beat) ∧
       (heartStep s t v).beat_num = s.beat_num + 1 ∧
       (heartStep s t v).prev_beat = t) ∧
    (∀ (s : HeartState) (t : ℤ) (v : ℚ),
       ¬(s.wait ≤ 0 ∧ 300 < bufferMax s.buffer - bufferMin s.buffer) →
       (heartStep s t v).sum_unit = s.sum_unit ∧
       (heartStep s t v).beat_num = s.beat_num) := by
  refine ⟨?_, ?_, ?_, ?_⟩
  · intro pre start samples hpos
    simp only [heartBeat]
    rw [if_pos hpos]
  · intro pre start samples hz
    simp only [heartBeat]
    rw [if_neg (by omega)]
  · intro s t v hw hr
    simp [heartStep, hw, hr]
  · intro s t v hn
    by_cases hw : s.wait ≤ 0
    · have hr : ¬ 300 < bufferMax s.buffer - bufferMin s.buffer := fun hr => hn ⟨hw, hr⟩
      simp [heartStep, hw, hr]
    · simp [heartStep, hw]

/-- Witness for C4: one beat at inter-beat interval 600 ms
(3 large boxes, 0 small boxes, unit 3) gives `300 / 3 = 100` bpm. -/
theorem C4_heartBeat_witness :
    heartBeat [0, 0, 0, 400, 0, 0] 0 [(600, 0)] = some 100 := by
  have h := C4_heartBeat.1 [0, 0, 0, 400, 0, 0] 0 [(600, 0)] (by with_unfolding_all decide)
  rw [h]
  with_unfolding_all decide

/-- C10: in `countSpikes`, `gazeH` and `blinks`, the iteration that first
fills the window buffer inserts its sample twice — the fill branch appends
it and the at-capacity branch then evicts the oldest element and appends it
again — so the buffer ends that iteration with the sample in both of its
last two positions (in `blinks` the first full pair is two equal values,
which cannot differ by more than 40 and cannot set the exit flag); the
buffer length still never exceeds the capacity. -/
theorem C10_double_insert :
    (∀ (s : SpikeState) (t : ℤ) (v : ℚ), s.inExc = false → s.buffer.length = 19 →
       (spikeStep s t v).buffer = s.buffer.tail ++ [v, v]) ∧
    (∀ (s : SpikeState) (t : ℤ) (v : ℚ), s.buffer.length ≤ 20 →
       (spikeStep s t v).buffer.length ≤ 20) ∧
    (∀ (s : GazeHState) (r : LookingAt) (v : ℚ), s.leftright_buffer.length = 9 →
       (gazeHStep s r v).1.leftright_buffer = s.leftright_buffer.tail ++ [v, v]) ∧
    (∀ (s : GazeHState) (r : LookingAt) (v : ℚ), s.leftright_buffer.length ≤ 10 →
       (gazeHStep s r v).1.leftright_buffer.length ≤ 10) ∧
    (∀ (s : BlinkState) (t : ℤ) (v : ℚ), s.buffer.length = 1 →
       (blinkStep s t v).buffer = [v, v] ∧ ¬ (40 : ℚ) < |v - v| ∧
       (blinkStep s t v).exitFlag = s.exitFlag) ∧
    (∀ (s : BlinkState) (t : ℤ) (v : ℚ), s.buffer.length ≤ 2 →
       (blinkStep s t v).buffer.length ≤ 2) := by
  refine ⟨?_, ?_, ?_, ?_, ?_, ?_⟩
  · intro s t v hex hlen
    have hne : s.buffer ≠ [] := by
      intro hnil
      rw [hnil] at hlen
      simp at hlen
    obtain ⟨a, l, hbuf⟩ := List.exists_cons_of_ne_nil hne
    have hfill : fillBuf s v = s.buffer ++ [v] := by
      rw [fillBuf, if_pos (by omega)]
    have hflen : (fillBuf s v).length = 20 := by
      rw [hfill]
      simp [hlen]
    have hshift : shiftBuf s v = s.buffer.tail ++ [v, v] := by
      rw [shiftBuf, hfill, hbuf]
      simp
    by_cases hsm : 150 < movingAverage (shiftBuf s v) (shiftBuf s v).length
    · rw [spikeStep_enter s t v hex hflen hsm, hshift]
    · rw [spikeStep_quiet s t v hex hflen hsm, spikePost_buffer, hshift]
  · intro s t v hlen
    by_cases hex : s.inExc = true
    · by_cases hsm : 150 < movingAverage (s.buffer.tail ++ [v]) (s.buffer.tail ++ [v]).length
      · rw [spikeStep_stay s t v hex hsm]
        simp
        omega
      · rw [spikeStep_leave s t v hex hsm, spikePost_buffer]
        simp
        omega
    · rw [Bool.not_eq_true] at hex
      by_cases hfl : (fillBuf s v).length = 20
      · by_cases hsm : 150 < movingAverage (shiftBuf s v) (shiftBuf s v).length
        · rw [spikeStep_enter s t v hex hfl hsm, shiftBuf]
          simp
          omega
        · rw [spikeStep_quiet s t v hex hfl hsm, spikePost_buffer, shiftBuf]
          simp
          omega
      · rw [spikeStep_fill s t v hex hfl, fillBuf]
        split_ifs with hc
        · simp
          omega
        · simpa using hlen
  · intro s r v hlen
    have hne : s.leftright_buffer ≠ [] := by
      intro hnil
      rw [hnil] at hlen
      simp at hlen
    obtain ⟨a, l, hbuf⟩ := List.exists_cons_of_ne_nil hne
    have hfill : (if s.leftright_buffer.length < 10 then s.leftright_buffer ++ [v]
        else s.leftright_buffer) = s.leftright_buffer ++ [v] := by
      rw [if_pos (by omega)]
    have hflen : (s.leftright_buffer ++ [v]).length = 10 := by simp [hlen]
    simp only [gazeHStep, hfill, hflen, if_pos]
    have htail : (s.leftright_buffer ++ [v]).tail ++ [v] = s.leftright_buffer.tail ++ [v, v] := by
      rw [hbuf]
      simp
    rw [htail]
    split_ifs <;> rfl
  · intro s r v hlen
    simp only [gazeHStep]
    split_ifs <;> simp <;> omega
  · intro s t v hlen
    obtain ⟨a, hbuf⟩ : ∃ a, s.buffer = [a] := by
      cases hb : s.buffer with
      | nil => rw [hb] at hlen; simp at hlen
      | cons x l =>
        cases l with
        | nil => exact ⟨x, rfl⟩
        | cons y m => rw [hb] at hlen; simp at hlen
    have h1 : (if s.buffer.length < 2 then s.buffer ++ [v] else s.buffer) = [a, v] := by
      rw [hbuf, if_pos (by simp)]
      rfl
    have hdiff : ¬ (40 : ℚ) < |v - v| := by simp
    have h40 : ¬ (40 : ℚ) < 0 := by norm_num
    refine ⟨?_, hdiff, ?_⟩
    · simp [blinkStep, h1, h40]
    · simp [blinkStep, h1, h40]
  · intro s t v hlen
    simp only [blinkStep]
    split_ifs <;> simp <;> omega

/-- C6 as stated is false on the code: the fall-back test
`buffer[0] < start_val` only runs inside the `|buffer[0] - buffer[1]| > 40`
branch, so a signal that falls below the recorded starting value in small
steps (pair differences ≤ 40) inside the 300 ms window does not declare a
blink.  In `ceTrace6` the window opens at clock 40 with `start_val = 150`
(the state after three samples), the sample at clock 60 has value 90 < 150
and `60 - 40 < 300`, yet the call returns `false`. -/
theorem C6_counterexample :
    blinkRun blinkInit (ceTrace6.take 3) =
      ⟨[150, 210], 40, 150, true, false⟩ ∧
    ((60 : ℤ), (90 : ℚ)) ∈ ceTrace6 ∧ ((60 : ℤ) - 40 < 300 ∧ (90 : ℚ) < 150) ∧
    blinks ceTrace6 = false := by
  with_unfolding_all decide

/-- C6 (amended): once the exit flag is set the call stops reading and
returns immediately; and at a step with a full two-sample buffer, the blink
is declared exactly when the current pair again differs by more than 40,
the (possibly just-started) 300 ms window is still open, and the older
element of the pair is below the recorded starting value.  In particular a
fall below `start_val` alone — with a pair difference of at most 40 — does
not declare a blink. -/
theorem C6_blinks :
    (∀ (s : BlinkState) (l : List (ℤ × ℚ)), s.exitFlag = true → blinkRun s l = s) ∧
    (∀ (s : BlinkState) (t : ℤ) (v : ℚ), s.buffer.length = 2 → s.exitFlag = false →
       ((blinkStep s t v).exitFlag = true ↔
         (40 < |s.buffer.getD 1 0 - v| ∧
          t - (if s.currently_checking = false ∧ s.buffer.getD 1 0 < v then t
               else s.blink_check_timer) < 300 ∧
          s.buffer.getD 1 0 <
            (if s.currently_checking = false ∧ s.buffer.getD 1 0 < v then s.buffer.getD 1 0
             else s.start_val)))) := by
  constructor
  · intro s l hs
    cases l with
    | nil => rfl
    | cons p rest =>
      obtain ⟨t, v⟩ := p
      show (if s.exitFlag = true then s else blinkRun (blinkStep s t v) rest) = s
      rw [if_pos hs]
  · intro s t v hlen hex
    obtain ⟨a, b, hbuf⟩ := List.length_eq_two.mp hlen
    simp only [blinkStep, hbuf]
    norm_num
    split_ifs with h1 h2 h3 h4 h5 h6 <;> simp_all

/-- Witness for C6: with an open check window (`start_val = 150`, opened at
clock 40), the pair (90, 20) at clock 80 differs by 70 > 40 and its older
element 90 is below 150, so the step declares the blink. -/
theorem C6_blinks_witness :
    (blinkStep ⟨[(210 : ℚ), 90], 40, 150, true, false⟩ 80 20).exitFlag = true := by
  rw [C6_blinks.2 ⟨[(210 : ℚ), 90], 40, 150, true, false⟩ 80 20 (by simp) rfl]
  with_unfolding_all decide

/-- C2 as stated is false on the code: the `up` branch of `gazeV` only
checks the opposite latch `currently_down`, so once `up` is latched a new
mean above `baseline * 1.40` re-emits `up` without any neutral-band passage.
Feeding 60 samples of 1000 latches `up` and returns `up`; calling again on
the persisted state with one more sample of 1000 — no neutral passage in
between — returns `up` again. -/
theorem C2_counterexample :
    (gazeV gazeVInit ceHighs).2 = LookingAt.up ∧
    (gazeV gazeVInit ceHighs).1.currently_up = true ∧
    (gazeV (gazeV gazeVInit ceHighs).1 [1000]).2 = LookingAt.up := by
  with_unfolding_all decide

/-- C2 (amended): with a full updown buffer, no blink at this step and the
cooldown elapsed, a mean above `baseline * 1.40` sets the result to `up`
and latches `currently_up` whenever `currently_down` is clear — also when
`currently_up` is already latched, i.e. re-emission is suppressed only by
the opposite latch, in which case `center_UD` is marked instead;
symmetrically for `down` below `baseline * 0.60` with the roles of the
latches swapped; and a mean in the neutral band clears both latches when
`center_UD` is marked. -/
theorem C2_gazeV_relatch :
    (∀ (g : GazeVState) (r : LookingAt) (v : ℚ),
       (gazeVBuffers g v).2.length = 10 →
       ¬ calculateSlope ((gazeVBuffers g v).1.take 10) < -75 →
       26 ≤ g.cooldown_counter →
       (450 : ℚ) * 1.40 < (gazeVBuffers g v).2.sum / 10 →
       (g.currently_down = false →
          (gazeVStep g r v).2 = LookingAt.up ∧ (gazeVStep g r v).1.currently_up = true) ∧
       (g.currently_down = true →
          (gazeVStep g r v).2 = r ∧ (gazeVStep g r v).1.center_UD = true)) ∧
    (∀ (g : GazeVState) (r : LookingAt) (v : ℚ),
       (gazeVBuffers g v).2.length = 10 →
       ¬ calculateSlope ((gazeVBuffers g v).1.take 10) < -75 →
       26 ≤ g.cooldown_counter →
       (gazeVBuffers g v).2.sum / 10 < (450 : ℚ) * 0.60 →
       ¬ (450 : ℚ) * 1.40 < (gazeVBuffers g v).2.sum / 10 →
       (g.currently_up = false →
          (gazeVStep g r v).2 = LookingAt.down ∧ (gazeVStep g r v).1.currently_down = true) ∧
       (g.currently_up = true →
          (gazeVStep g r v).2 = r ∧ (gazeVStep g r v).1.center_UD = true)) ∧
    (∀ (g : GazeVState) (r : LookingAt) (v : ℚ),
       (gazeVBuffers g v).2.length = 10 →
       ¬ calculateSlope ((gazeVBuffers g v).1.take 10) < -75 →
       26 ≤ g.cooldown_counter →
       ¬ (450 : ℚ) * 1.40 < (gazeVBuffers g v).2.sum / 10 →
       ¬ (gazeVBuffers g v).2.sum / 10 < (450 : ℚ) * 0.60 →
       g.center_UD = true →
       (gazeVStep g r v).1.currently_up = false ∧
       (gazeVStep g r v).1.currently_down = false) := by
  refine ⟨?_, ?_, ?_⟩
  · intro g r v hlen hblink hcc havg
    have hb : decide (calculateSlope ((gazeVBuffers g v).1.take 10) < -75) = false := by
      simpa using hblink
    constructor
    · intro hdown
      simp [gazeVStep, hlen, hb, hcc, havg, hdown]
    · intro hdown
      simp [gazeVStep, hlen, hb, hcc, havg, hdown]
  · intro g r v hlen hblink hcc havg havg2
    have hb : decide (calculateSlope ((gazeVBuffers g v).1.take 10) < -75) = false := by
      simpa using hblink
    constructor
    · intro hup
      simp [gazeVStep, hlen, hb, hcc, havg, havg2, hup]
    · intro hup
      simp [gazeVStep, hlen, hb, hcc, havg, havg2, hup]
  · intro g r v hlen hblink hcc havg havg2 hcen
    have hb : decide (calculateSlope ((gazeVBuffers g v).1.take 10) < -75) = false := by
      simpa using hblink
    simp [gazeVStep, hlen, hb, hcc, havg, havg2, hcen]

/-- Witness for C2: with `currently_up` already latched (and `currently_down`
clear), a full buffer of samples 1000 — mean 1000 > 630 — re-emits `up`. -/
theorem C2_gazeV_relatch_witness :
    (gazeVStep ⟨true, false, false, 26, List.replicate 16 1000, List.replicate 10 1000⟩
       LookingAt.none 1000).2 = LookingAt.up ∧
    (gazeVStep ⟨true, false, false, 26, List.replicate 16 1000, List.replicate 10 1000⟩
       LookingAt.none 1000).1.currently_up = true :=
  (C2_gazeV_relatch.1 ⟨true, false, false, 26, List.replicate 16 1000, List.replicate 10 1000⟩
    LookingAt.none 1000 (by with_unfolding_all decide) (by with_unfolding_all decide)
    (by decide) (by with_unfolding_all decide)).1 rfl

/-- C7: the gaze-axis latch state is process-wide and persists across
calls.  A call that reads no sample returns with the whole state — latches,
cooldown counter and buffers — exactly as it found it (no re-initialization
on entry); a step can clear a latched `currently_up` (resp.
`currently_left`) only when the buffer mean lies in the neutral band with
`center_UD` (resp. `center_LR`) marked, so a latch survives until the
averaged signal crosses back through the neutral band; and concretely, a
call latching `up` leaves `currently_up` set for the next call, which still
sees it latched. -/
theorem C7_gaze_state_persists :
    (∀ g : GazeVState, gazeV g [] = (g, LookingAt.none)) ∧
    (∀ s : GazeHState, gazeH s [] = (s, LookingAt.none)) ∧
    (∀ (g : GazeVState) (r : LookingAt) (v : ℚ), g.currently_up = true →
       (gazeVStep g r v).1.currently_up = false →
       ((gazeVBuffers g v).2.length = 10 ∧ g.center_UD = true ∧
        ¬ (450 : ℚ) * 1.40 < (gazeVBuffers g v).2.sum / 10 ∧
        ¬ (gazeVBuffers g v).2.sum / 10 < (450 : ℚ) * 0.60)) ∧
    (∀ (s : GazeHState) (r : LookingAt) (v : ℚ), s.currently_left = true →
       (gazeHStep s r v).1.currently_left = false →
       (s.center_LR = true ∧
        ¬ (450 : ℚ) * 1.25 <
          (((if s.leftright_buffer.length < 10 then s.leftright_buffer ++ [v]
             else s.leftright_buffer).tail ++ [v]).sum / 10) ∧
        ¬ (((if s.leftright_buffer.length < 10 then s.leftright_buffer ++ [v]
             else s.leftright_buffer).tail ++ [v]).sum / 10) < (450 : ℚ) * 0.75)) ∧
    ((gazeV gazeVInit highs52).2 = LookingAt.up ∧
     (gazeV gazeVInit highs52).1.currently_up = true ∧
     (gazeV (gazeV gazeVInit highs52).1 [900]).1.currently_up = true) := by
  refine ⟨fun g => rfl, fun s => rfl, ?_, ?_, ?_⟩
  · intro g r v hup hstep
    simp only [gazeVStep] at hstep
    split_ifs at hstep <;> simp_all
  · intro s r v hleft hstep
    simp only [gazeHStep] at hstep
    split_ifs at hstep <;> simp_all
  · with_unfolding_all decide

/-- Witness for C7: a neutral mean with `center_UD` marked is exactly what
clears a latched `up`. -/
theorem C7_gaze_state_persists_witness :
    (gazeVBuffers ⟨true, false, true, 26, List.replicate 16 450, List.replicate 10 450⟩
       450).2.length = 10 ∧
    (⟨true, false, true, 26, List.replicate 16 450, List.replicate 10 450⟩ :
       GazeVState).center_UD = true ∧
    ¬ (450 : ℚ) * 1.40 <
      (gazeVBuffers ⟨true, false, true, 26, List.replicate 16 450, List.replicate 10 450⟩
        450).2.sum / 10 ∧
    ¬ (gazeVBuffers ⟨true, false, true, 26, List.replicate 16 450, List.replicate 10 450⟩
        450).2.sum / 10 < (450 : ℚ) * 0.60 :=
  C7_gaze_state_persists.2.2.1
    ⟨true, false, true, 26, List.replicate 16 450, List.replicate 10 450⟩
    LookingAt.none 450 rfl (by with_unfolding_all decide)

theorem slopeSums_linear (a b : ℚ) : ∀ (n : ℕ) (k : ℚ),
    slopeSums ((List.range n).map (fun x : ℕ => a * ((x : ℚ) + k) + b)) k =
      ((n : ℚ) * k + n * (n - 1) / 2,
       a * ((n : ℚ) * k + n * (n - 1) / 2) + b * n,
       a * ((n : ℚ) * k * k + k * (n * (n - 1)) + n * (n - 1) * (2 * n - 1) / 6) +
         b * ((n : ℚ) * k + n * (n - 1) / 2),
       (n : ℚ) * k * k + k * (n * (n - 1)) + n * (n - 1) * (2 * n - 1) / 6) := by
  intro n
  induction n with
  | zero =>
    intro k
    simp [slopeSums]
  | succ n ih =>
    intro k
    rw [List.range_succ_eq_map, List.map_cons, List.map_map]
    have hf : ((fun x : ℕ => a * ((x : ℚ) + k) + b) ∘ Nat.succ) =
        (fun x : ℕ => a * ((x : ℚ) + (k + 1)) + b) := by
      funext x
      simp only [Function.comp_apply]
      push_cast
      ring
    rw [hf]
    show (k + (slopeSums _ (k + 1)).1,
          (a * (((0 : ℕ) : ℚ) + k) + b) + (slopeSums _ (k + 1)).2.1,
          k * (a * (((0 : ℕ) : ℚ) + k) + b) + (slopeSums _ (k + 1)).2.2.1,
          k * k + (slopeSums _ (k + 1)).2.2.2) = _
    rw [ih (k + 1)]
    simp only [Prod.mk.injEq]
    refine ⟨?_, ?_, ?_, ?_⟩ <;> push_cast <;> ring

theorem slope_formula (nq S1 S2 aa bb : ℚ) (hD : nq * S2 - S1 * S1 ≠ 0) :
    (nq * (aa * S2 + bb * S1) - S1 * (aa * S1 + bb * nq)) / (nq * S2 - S1 * S1) = aa := by
  have hnum : nq * (aa * S2 + bb * S1) - S1 * (aa * S1 + bb * nq) =
      aa * (nq * S2 - S1 * S1) := by ring
  rw [hnum, mul_div_assoc, div_self hD, mul_one]

/-- C9: `calculateSlope` applied to the perfectly linear length-`n` sequence
`x ↦ a * x + b` over indices `0 … n-1` returns exactly `a` for every
`n ≥ 2` and all rational coefficients `a`, `b` — the ordinary-least-squares
slope `(n·Σxy − Σx·Σy) / (n·Σx² − (Σx)²)` of a linear sequence is its
coefficient. -/
theorem C9_calculateSlope (n : ℕ) (a b : ℚ) (h : 2 ≤ n) :
    calculateSlope ((List.range n).map (fun x : ℕ => a * (x : ℚ) + b)) = a := by
  have hfn : (fun x : ℕ => a * (x : ℚ) + b) = (fun x : ℕ => a * ((x : ℚ) + 0) + b) := by
    funext x
    ring
  rw [hfn]
  have hs := slopeSums_linear a b n 0
  have h2 : (2 : ℚ) ≤ (n : ℚ) := by exact_mod_cast h
  have hD : (n : ℚ) * ((n : ℚ) * 0 * 0 + 0 * ((n : ℚ) * ((n : ℚ) - 1)) +
        (n : ℚ) * ((n : ℚ) - 1) * (2 * (n : ℚ) - 1) / 6) -
      ((n : ℚ) * 0 + (n : ℚ) * ((n : ℚ) - 1) / 2) *
        ((n : ℚ) * 0 + (n : ℚ) * ((n : ℚ) - 1) / 2) =
      (n : ℚ) ^ 2 * ((n : ℚ) - 1) * ((n : ℚ) + 1) / 12 := by ring
  have hDpos : (0 : ℚ) < (n : ℚ) ^ 2 * ((n : ℚ) - 1) * ((n : ℚ) + 1) / 12 := by
    apply div_pos _ (by norm_num)
    apply mul_pos (mul_pos _ (by linarith)) (by linarith)
    have : (0 : ℚ) < (n : ℚ) := by linarith
    positivity
  simp only [calculateSlope, List.length_map, List.length_range]
  rw [hs]
  exact slope_formula ((n : ℚ)) _ _ a b (by rw [hD]; exact ne_of_gt hDpos)

/-- Witness for C9: the sequence `[5, 8]` (that is `x ↦ 3·x + 5` on
`x = 0, 1`) has slope exactly 3. -/
theorem C9_calculateSlope_witness :
    calculateSlope [(5 : ℚ), 8] = 3 := by
  have h := C9_calculateSlope 2 3 5 (by norm_num)
  have he : ((List.range 2).map (fun x : ℕ => 3 * (x : ℚ) + 5)) = [(5 : ℚ), 8] := by
    simp [List.range_succ]
    norm_num
  rw [he] at h
  exact h

theorem spikeRun_short (samples : List (ℤ × ℚ)) : ∀ s : SpikeState,
    (∀ p ∈ samples, 0 ≤ p.1) →
    (∀ d ∈ spikeDurations s samples, d < 500) →
    (spikeRun s samples).inExc = false →
    (s.inExc = false → s.checking = false ∧ s.check_time = -500 ∧ s.check_grip = false) →
    (spikeRun s samples).counter = s.counter + (spikeDurations s samples).length := by
  induction samples with
  | nil =>
    intro s _ _ _ _
    simp [spikeRun, spikeDurations]
  | cons p rest ih =>
    obtain ⟨t, v⟩ := p
    intro s h0 hshort hend hinv
    rw [spikeRun_cons] at hend ⊢
    have h0r : ∀ q ∈ rest, 0 ≤ q.1 := fun q hq => h0 q (by simp [hq])
    by_cases hex : s.inExc = true
    · by_cases hsm : 150 < movingAverage (s.buffer.tail ++ [v]) (s.buffer.tail ++ [v]).length
      · -- the inner loop keeps running
        have hstep := spikeStep_stay s t v hex hsm
        have hs2 : (spikeStep s t v).inExc = true := by rw [hstep]; exact hex
        have hdc : spikeDurations s ((t, v) :: rest) =
            spikeDurations (spikeStep s t v) rest := by
          rw [spikeDurations_cons, if_neg]
          simp [hs2]
        rw [hdc] at hshort ⊢
        have hcnt : (spikeStep s t v).counter = s.counter := by rw [hstep]
        rw [ih (spikeStep s t v) h0r hshort hend
          (fun h => absurd (hs2 ▸ h) (by simp)), hcnt]
      · -- the inner loop is left at this sample
        have hstep := spikeStep_leave s t v hex hsm
        have hemit : s.inExc = true ∧ (spikeStep s t v).inExc = false := by
          refine ⟨hex, ?_⟩
          rw [hstep, spikePost_inExc]
        have hdc : spikeDurations s ((t, v) :: rest) =
            (t - (if s.checking = true then s.check_time else t)) ::
              spikeDurations (spikeStep s t v) rest := by
          rw [spikeDurations_cons, if_pos hemit]
        have hd : t - (if s.checking = true then s.check_time else t) < 500 :=
          hshort _ (by rw [hdc]; simp)
        have hstep2 : spikeStep s t v =
            { s with buffer := s.buffer.tail ++ [v], counter := s.counter + 1,
                     checking := false, check_time := -500, check_grip := false,
                     inExc := false } := by
          rw [hstep, spikePost_of_lt _ _ hd]
        rw [hdc] at hshort ⊢
        have hshort2 : ∀ d ∈ spikeDurations (spikeStep s t v) rest, d < 500 :=
          fun d hdm => hshort d (by simp [hdm])
        rw [ih (spikeStep s t v) h0r hshort2 hend (fun _ => by rw [hstep2]; exact ⟨rfl, rfl, rfl⟩)]
        rw [hstep2]
        simp only [List.length_cons]
        omega
    · rw [Bool.not_eq_true] at hex
      obtain ⟨hchk, hctm, hgrip⟩ := hinv hex
      have hdc : spikeDurations s ((t, v) :: rest) =
          spikeDurations (spikeStep s t v) rest := by
        rw [spikeDurations_cons, if_neg]
        simp [hex]
      rw [hdc] at hshort ⊢
      have ht : (0 : ℤ) ≤ t := h0 (t, v) (by simp)
      by_cases hfl : (fillBuf s v).length = 20
      · by_cases hsm : 150 < movingAverage (shiftBuf s v) (shiftBuf s v).length
        · -- the smoothed signal rises above threshold: enter the inner loop
          have hstep := spikeStep_enter s t v hex hfl hsm
          have hs2 : (spikeStep s t v).inExc = true := by rw [hstep]
          have hcnt : (spikeStep s t v).counter = s.counter := by rw [hstep]
          rw [ih (spikeStep s t v) h0r hshort hend
            (fun h => absurd (hs2 ▸ h) (by simp)), hcnt]
        · -- quiet full-buffer iteration: the post-checks fire but do nothing
          have hstep := spikeStep_quiet s t v hex hfl hsm
          have hstep2 : spikeStep s t v = { s with buffer := shiftBuf s v, checking := false } := by
            rw [hstep, spikePost_of_ge_nogrip]
            · show ¬ t - s.check_time < 500
              omega
            · exact hgrip
          have hcnt : (spikeStep s t v).counter = s.counter := by rw [hstep2]
          rw [ih (spikeStep s t v) h0r hshort hend
            (fun _ => by rw [hstep2]; exact ⟨rfl, hctm, hgrip⟩), hcnt]
      · -- still filling the buffer
        have hstep := spikeStep_fill s t v hex hfl
        have hcnt : (spikeStep s t v).counter = s.counter := by rw [hstep]
        rw [ih (spikeStep s t v) h0r hshort hend
          (fun _ => by rw [hstep]; exact ⟨hchk, hctm, hgrip⟩), hcnt]

/-- C3: a `countSpikes` call whose samples produce only isolated
above-threshold excursions — every completed excursion strictly shorter than
the 500 ms interval, the smoothed signal back at or below the threshold at
the end — returns exactly the number of those excursions
(`spikeDurations` lists one entry per completed excursion, i.e. per return
of the smoothed signal to at or below the threshold). -/
theorem C3_countSpikes_isolated (samples : List (ℤ × ℚ))
    (h0 : ∀ p ∈ samples, 0 ≤ p.1)
    (hshort : ∀ d ∈ spikeDurations spikeInit samples, d < 500)
    (hend : (spikeRun spikeInit samples).inExc = false) :
    countSpikes samples = (spikeDurations spikeInit samples).length := by
  have h := spikeRun_short samples spikeInit h0 hshort hend (fun _ => ⟨rfl, rfl, rfl⟩)
  simpa [countSpikes, spikeInit] using h

/-- Witness for C3: a trace with two isolated 60 ms excursions counts
exactly 2. -/
theorem C3_countSpikes_isolated_witness :
    countSpikes witTrace3 = (spikeDurations spikeInit witTrace3).length ∧
    spikeDurations spikeInit witTrace3 = [60, 60] ∧
    countSpikes witTrace3 = 2 :=
  ⟨C3_countSpikes_isolated witTrace3 (by with_unfolding_all decide)
     (by with_unfolding_all decide) (by with_unfolding_all decide),
   by with_unfolding_all decide, by with_unfolding_all decide⟩

theorem spikeRun_grip (samples : List (ℤ × ℚ)) : ∀ s : SpikeState,
    List.Pairwise (fun p q : ℤ × ℚ => p.1 ≤ q.1) samples →
    ((∃ l₁ g l₂, spikeDurations s samples = l₁ ++ g :: l₂ ∧ 500 ≤ g ∧ ∀ d ∈ l₂, 500 ≤ d) ∨
     (s.counter = -1 ∧ (∀ d ∈ spikeDurations s samples, 500 ≤ d) ∧
      (s.inExc = false → s.check_grip = true ∧ s.checking = false ∧
        ∀ p ∈ samples, s.check_time + 500 ≤ p.1))) →
    (spikeRun s samples).counter = -1 := by
  induction samples with
  | nil =>
    intro s _ hcase
    rcases hcase with ⟨l₁, g, l₂, heq, _, _⟩ | ⟨hc, _, _⟩
    · exact absurd heq.symm (by simp [spikeDurations])
    · simpa [spikeRun] using hc
  | cons p rest ih =>
    obtain ⟨t, v⟩ := p
    intro s hpw hcase
    have hhd : ∀ q ∈ rest, t ≤ q.1 := fun q hq => (List.pairwise_cons.mp hpw).1 q hq
    have hpw2 : List.Pairwise (fun p q : ℤ × ℚ => p.1 ≤ q.1) rest :=
      (List.pairwise_cons.mp hpw).2
    rw [spikeRun_cons]
    rcases hcase with ⟨l₁, g, l₂, heq, hg, hl₂⟩ | ⟨hc, hdur, hrest⟩
    · -- a final grip is still ahead (or completes at this very sample)
      by_cases hemit : s.inExc = true ∧ (spikeStep s t v).inExc = false
      · have hdc : spikeDurations s ((t, v) :: rest) =
            (t - (if s.checking = true then s.check_time else t)) ::
              spikeDurations (spikeStep s t v) rest := by
          rw [spikeDurations_cons, if_pos hemit]
        rw [hdc] at heq
        have hsm : ¬ 150 < movingAverage (s.buffer.tail ++ [v]) (s.buffer.tail ++ [v]).length := by
          intro hsm
          have hs2 := spikeStep_stay s t v hemit.1 hsm
          have : (spikeStep s t v).inExc = true := by rw [hs2]; exact hemit.1
          rw [hemit.2] at this
          exact absurd this (by simp)
        have hstep := spikeStep_leave s t v hemit.1 hsm
        cases l₁ with
        | nil =>
          simp only [List.nil_append, List.cons.injEq] at heq
          obtain ⟨hdg, hrest_eq⟩ := heq
          -- the grip completes now: the post-checks skip the spike count and
          -- overwrite the counter with -1
          have hge : ¬ t - (if s.checking = true then s.check_time else t) < 500 := by
            omega
          have hstep2 : spikeStep s t v =
              { s with buffer := s.buffer.tail ++ [v], counter := -1,
                       checking := false,
                       check_time := if s.checking = true then s.check_time else t,
                       check_grip := true, inExc := false } := by
            rw [hstep, spikePost_of_ge_grip _ _ hge rfl]
          apply ih (spikeStep s t v) hpw2
          right
          refine ⟨by rw [hstep2], ?_, ?_⟩
          · rw [hrest_eq]
            exact hl₂
          · intro _
            refine ⟨by rw [hstep2], by rw [hstep2], ?_⟩
            intro q hq
            have h1 : (if s.checking = true then s.check_time else t) + 500 ≤ t := by omega
            have h2 : (spikeStep s t v).check_time =
                (if s.checking = true then s.check_time else t) := by rw [hstep2]
            rw [h2]
            exact le_trans h1 (hhd q hq)
        | cons d l₁ =>
          simp only [List.cons_append, List.cons.injEq] at heq
          apply ih (spikeStep s t v) hpw2
          exact Or.inl ⟨l₁, g, l₂, heq.2, hg, hl₂⟩
      · have hdc : spikeDurations s ((t, v) :: rest) =
            spikeDurations (spikeStep s t v) rest := by
          rw [spikeDurations_cons, if_neg hemit]
        rw [hdc] at heq
        exact ih (spikeStep s t v) hpw2 (Or.inl ⟨l₁, g, l₂, heq, hg, hl₂⟩)
    · -- the grip already happened: the counter stays at -1
      by_cases hex : s.inExc = true
      · by_cases hsm : 150 < movingAverage (s.buffer.tail ++ [v]) (s.buffer.tail ++ [v]).length
        · have hstep := spikeStep_stay s t v hex hsm
          have hs2 : (spikeStep s t v).inExc = true := by rw [hstep]; exact hex
          have hdc : spikeDurations s ((t, v) :: rest) =
              spikeDurations (spikeStep s t v) rest := by
            rw [spikeDurations_cons, if_neg]
            simp [hs2]
          rw [hdc] at hdur
          apply ih (spikeStep s t v) hpw2
          right
          exact ⟨by rw [hstep]; exact hc, hdur, fun h => absurd (hs2 ▸ h) (by simp)⟩
        · have hstep := spikeStep_leave s t v hex hsm
          have hemit : s.inExc = true ∧ (spikeStep s t v).inExc = false := by
            refine ⟨hex, ?_⟩
            rw [hstep, spikePost_inExc]
          have hdc : spikeDurations s ((t, v) :: rest) =
              (t - (if s.checking = true then s.check_time else t)) ::
                spikeDurations (spikeStep s t v) rest := by
            rw [spikeDurations_cons, if_pos hemit]
          have hd : 500 ≤ t - (if s.checking = true then s.check_time else t) :=
            hdur _ (by rw [hdc]; simp)
          have hge : ¬ t - (if s.checking = true then s.check_time else t) < 500 := by omega
          have hstep2 : spikeStep s t v =
              { s with buffer := s.buffer.tail ++ [v], counter := -1,
                       checking := false,
                       check_time := if s.checking = true then s.check_time else t,
                       check_grip := true, inExc := false } := by
            rw [hstep, spikePost_of_ge_grip _ _ hge rfl]
          rw [hdc] at hdur
          apply ih (spikeStep s t v) hpw2
          right
          refine ⟨by rw [hstep2], fun d hdm => hdur d (by simp [hdm]), ?_⟩
          intro _
          refine ⟨by rw [hstep2], by rw [hstep2], ?_⟩
          intro q hq
          have h2 : (spikeStep s t v).check_time =
              (if s.checking = true then s.check_time else t) := by rw [hstep2]
          rw [h2]
          exact le_trans (by omega) (hhd q hq)
      · rw [Bool.not_eq_true] at hex
        obtain ⟨hgrip, hchk, htime⟩ := hrest hex
        have hdc : spikeDurations s ((t, v) :: rest) =
            spikeDurations (spikeStep s t v) rest := by
          rw [spikeDurations_cons, if_neg]
          simp [hex]
        rw [hdc] at hdur
        have ht : s.check_time + 500 ≤ t := htime (t, v) (by simp)
        by_cases hfl : (fillBuf s v).length = 20
        · by_cases hsm : 150 < movingAverage (shiftBuf s v) (shiftBuf s v).length
          · have hstep := spikeStep_enter s t v hex hfl hsm
            have hs2 : (spikeStep s t v).inExc = true := by rw [hstep]
            apply ih (spikeStep s t v) hpw2
            right
            exact ⟨by rw [hstep]; exact hc, hdur, fun h => absurd (hs2 ▸ h) (by simp)⟩
          · have hstep := spikeStep_quiet s t v hex hfl hsm
            have hstep2 : spikeStep s t v =
                { s with buffer := shiftBuf s v, checking := false, counter := -1 } := by
              rw [hstep, spikePost_of_ge_grip]
              · show ¬ t - s.check_time < 500
                omega
              · exact hgrip
            apply ih (spikeStep s t v) hpw2
            right
            refine ⟨by rw [hstep2], hdur, ?_⟩
            intro _
            refine ⟨by rw [hstep2]; exact hgrip, by rw [hstep2], ?_⟩
            intro q hq
            have h2 : (spikeStep s t v).check_time = s.check_time := by rw [hstep2]
            rw [h2]
            exact htime q (by simp [hq])
        · have hstep := spikeStep_fill s t v hex hfl
          apply ih (spikeStep s t v) hpw2
          right
          refine ⟨by rw [hstep]; exact hc, hdur, ?_⟩
          intro _
          refine ⟨by rw [hstep]; exact hgrip, by rw [hstep]; exact hchk, ?_⟩
          intro q hq
          have h2 : (spikeStep s t v).check_time = s.check_time := by rw [hstep]
          rw [h2]
          exact htime q (by simp [hq])

/-- C1 as stated is false on the code: a sustained grip does set the counter
to -1, but a later sub-500 ms excursion runs the spike check again, clears
the grip flag and increments the counter from -1 back to 0, after which
counting resumes.  `ceTrace1` has excursion durations 60, 1200 and 60 ms:
the 1200 ms grip (≥ 500 ms) is followed by a short excursion, and the call
returns 0 instead of -1. -/
theorem C1_counterexample :
    spikeDurations spikeInit ceTrace1 = [60, 1200, 60] ∧ (500 : ℤ) ≤ 1200 ∧
    countSpikes ceTrace1 = 0 :=
  ⟨by with_unfolding_all decide, by decide, by with_unfolding_all decide⟩

/-- C1 (amended): if some completed excursion of the smoothed signal lasts
at least 500 ms (a sustained grip) and every excursion completing after it
also lasts at least 500 ms — in particular if nothing completes after the
grip — then `countSpikes` returns the sentinel -1 for the entire call,
overriding any spikes counted before the grip.  (A sub-500 ms excursion
completing after the grip instead resets the counter to 0 and counting
resumes, as the counterexample shows.) -/
theorem C1_countSpikes_grip (samples : List (ℤ × ℚ)) (l₁ l₂ : List ℤ) (g : ℤ)
    (hpw : List.Pairwise (fun p q : ℤ × ℚ => p.1 ≤ q.1) samples)
    (heq : spikeDurations spikeInit samples = l₁ ++ g :: l₂)
    (hg : 500 ≤ g) (hl₂ : ∀ d ∈ l₂, 500 ≤ d) :
    countSpikes samples = -1 :=
  spikeRun_grip samples spikeInit hpw (Or.inl ⟨l₁, g, l₂, heq, hg, hl₂⟩)

/-- Witness for C1 (amended): a trace whose only completed excursion is a
1200 ms grip returns -1. -/
theorem C1_countSpikes_grip_witness :
    countSpikes witTrace1 = -1 :=
  C1_countSpikes_grip witTrace1 [] [] 1200
    (by with_unfolding_all decide) (by with_unfolding_all decide) (by decide)
    (fun d hd => absurd hd (List.not_mem_nil d))

/-- Witness for C10 at concrete states: a 19-element spike buffer, a
9-element `gazeH` buffer and a 1-element `blinks` buffer each end the
filling iteration with the new sample `9` in the last two positions. -/
theorem C10_double_insert_witness :
    (spikeStep ⟨List.replicate 19 7, 0, false, -500, false, false⟩ 0 9).buffer =
      (List.replicate 19 (7 : ℚ)).tail ++ [9, 9] ∧
    (gazeHStep ⟨false, false, false, List.replicate 9 7⟩ LookingAt.none 9).1.leftright_buffer =
      (List.replicate 9 (7 : ℚ)).tail ++ [9, 9] ∧
    (blinkStep ⟨[7], 0, 0, false, false⟩ 0 9).buffer = [9, 9] := by
  refine ⟨?_, ?_, ?_⟩
  · exact C10_double_insert.1 ⟨List.replicate 19 7, 0, false, -500, false, false⟩ 0 9 rfl (by simp)
  · exact C10_double_insert.2.2.1 ⟨false, false, false, List.replicate 9 7⟩ LookingAt.none 9 (by simp)
  · exact (C10_double_insert.2.2.2.2.1 ⟨[7], 0, 0, false, false⟩ 0 9 (by simp)).1

end Neurobit
